import Mathlib

/-!
Verification of the versioned S3 blob store of `aws_config`
(`aws_config/s3.py`, `aws_config/constants.py`).

The Python code is shallowly embedded as executable Lean definitions:

* Python `str` values become `List Char` (keys, metadata values,
  version tokens).  `str(n)`, `int(s)`, `s.zfill(w)` and
  `s.split(sep)` are embedded below as `pyStrOfNat`, `pyToNat?`,
  `pyZfill` and `pySplitOn`.  `pyToNat?` covers the nonnegative decimal
  strings this module ever feeds to Python `int` (every value it writes
  is `str(n)` for some `n : Nat`); a failing `int(...)` call is `none`.
* Parsed JSON configuration data (`config_data` dictionaries) is an
  abstract type `Data` with decidable equality: `json.loads` /
  `json.dumps` round-trip, and Python `dict` equality is structural and
  insensitive to serialization and field order.  The checksum helper
  `sha256_of_config_data` (defined in a repository file outside `src/`)
  is an abstract parameter `sha : Data → List Char`; no claim depends on
  its value, it is only stored into object metadata.
* The S3 backend state for one parameter path is `S3State`:
  - `objects` models the key space of the parameter's folder in a
    versioning-NotEnabled bucket: an association list from object key
    (relative to `s3dir_config`, whose constant textual value plays no
    role in any operation) to stored object `DObj` (content + user
    metadata).  `put_object` overwrites, `delete_object` removes, and
    `iter_objects` lists keys, exactly as in S3 without versioning.
  - `history`/`counter` model the canonical key of a
    versioning-Enabled bucket: the newest-first stack of versions of
    `s3path_latest` (content entries and delete markers) plus a supply
    of fresh opaque version ids.  A GET serves the newest entry (404
    `NoSuchKey` if it is a delete marker or the stack is empty),
    `list_object_versions(limit=2)` takes the two newest entries,
    a plain DELETE pushes a delete marker, a hard delete erases the
    stack.
* Exceptions become `Except Err`: `S3ObjectNotExist` is
  `Err.noSuchKey`, `S3BucketVersionSuspendedError` is
  `Err.s3BucketVersionSuspendedError`, Python `KeyError` /
  `ValueError` / `IndexError` are the corresponding constructors.
-/

/-! ## Embedding of the Python string primitives -/

/-- Decimal value of an ASCII digit character, as Python `int` computes it. -/
def pyDigitVal (c : Char) : Nat := c.toNat - 48

/-- Little-endian decimal digits of `n`; the first argument is fuel
(`fuel ≥ n` suffices, the recursion divides by 10 each step). -/
def natDigitsAux : Nat → Nat → List Nat
  | _, 0 => []
  | 0, _ + 1 => []
  | fuel + 1, n + 1 => (n + 1) % 10 :: natDigitsAux fuel ((n + 1) / 10)

/-- Embedding of Python `str(n)` for `n : Nat`. -/
def pyStrOfNat (n : Nat) : List Char :=
  if n = 0 then ['0'] else ((natDigitsAux n n).map Nat.digitChar).reverse

/-- Embedding of Python `int(s)` for nonnegative decimal strings;
`none` is a `ValueError`. -/
def pyToNat? (s : List Char) : Option Nat :=
  if s.isEmpty then none
  else if s.all Char.isDigit then
    some (s.foldl (fun a c => 10 * a + pyDigitVal c) 0)
  else none

/-- Embedding of Python `s.zfill(w)` for unsigned strings. -/
def pyZfill (s : List Char) (w : Nat) : List Char :=
  List.replicate (w - s.length) '0' ++ s

/-- Embedding of Python `s.split(sep)` for a one-character separator. -/
def pySplitOn (sep : Char) : List Char → List (List Char)
  | [] => [[]]
  | c :: rest =>
    if c = sep then [] :: pySplitOn sep rest
    else
      match pySplitOn sep rest with
      | [] => [[c]]
      | g :: gs => (c :: g) :: gs

/-- Numeric value of a little-endian digit list. -/
def digitsVal : List Nat → Nat
  | [] => 0
  | d :: l => d + 10 * digitsVal l

theorem digitsVal_natDigitsAux : ∀ fuel n, n ≤ fuel → digitsVal (natDigitsAux fuel n) = n := by
  intro fuel
  induction fuel with
  | zero => intro n hn; interval_cases n; rfl
  | succ fuel ih =>
    intro n hn
    match n with
    | 0 => rfl
    | n + 1 =>
      have hdiv : (n + 1) / 10 < n + 1 := Nat.div_lt_self (Nat.succ_pos n) (by omega)
      have := ih ((n + 1) / 10) (by omega)
      simp only [natDigitsAux, digitsVal, this]
      omega

theorem natDigitsAux_lt_ten : ∀ fuel n, ∀ d ∈ natDigitsAux fuel n, d < 10 := by
  intro fuel
  induction fuel with
  | zero => intro n d hd; cases n <;> simp [natDigitsAux] at hd
  | succ fuel ih =>
    intro n d hd
    cases n with
    | zero => simp [natDigitsAux] at hd
    | succ m =>
      simp only [natDigitsAux, List.mem_cons] at hd
      rcases hd with h | h
      · omega
      · exact ih _ _ h

theorem natDigitsAux_ne_nil (n : Nat) (h : n ≠ 0) : natDigitsAux n n ≠ [] := by
  match n with
  | 0 => exact absurd rfl h
  | n + 1 => simp [natDigitsAux]

theorem pyDigitVal_digitChar (d : Nat) (h : d < 10) : pyDigitVal (Nat.digitChar d) = d := by
  interval_cases d <;> decide

theorem isDigit_digitChar (d : Nat) (h : d < 10) : (Nat.digitChar d).isDigit = true := by
  interval_cases d <;> decide

theorem foldl_digitChars (l : List Nat) (hl : ∀ d ∈ l, d < 10) (a : Nat) :
    ((l.map Nat.digitChar).reverse.foldl (fun x c => 10 * x + pyDigitVal c) a)
      = a * 10 ^ l.length + digitsVal l := by
  induction l generalizing a with
  | nil => simp [digitsVal]
  | cons d l ih =>
    have hd : d < 10 := hl d (by simp)
    have hl' : ∀ x ∈ l, x < 10 := fun x hx => hl x (by simp [hx])
    simp only [List.map_cons, List.reverse_cons, List.foldl_append, List.foldl_cons,
      List.foldl_nil, ih hl', digitsVal, List.length_cons]
    rw [pyDigitVal_digitChar d hd]
    ring

theorem pyStrOfNat_all_digits (n : Nat) : (pyStrOfNat n).all Char.isDigit = true := by
  unfold pyStrOfNat
  split
  · decide
  · rename_i h
    simp only [List.all_eq_true, List.mem_reverse, List.mem_map]
    rintro c ⟨d, hd, rfl⟩
    exact isDigit_digitChar d (natDigitsAux_lt_ten n n d hd)

theorem pyStrOfNat_ne_nil (n : Nat) : pyStrOfNat n ≠ [] := by
  unfold pyStrOfNat
  split
  · simp
  · rename_i h
    simp only [ne_eq, List.reverse_eq_nil_iff, List.map_eq_nil_iff]
    exact natDigitsAux_ne_nil n h

/-- Round trip: Python `int(str(n)) = n`. -/
theorem pyToNat?_pyStrOfNat (n : Nat) : pyToNat? (pyStrOfNat n) = some n := by
  have h1 : (pyStrOfNat n).isEmpty = false := by
    cases h : pyStrOfNat n with
    | nil => exact absurd h (pyStrOfNat_ne_nil n)
    | cons a l => rfl
  unfold pyToNat?
  rw [h1, pyStrOfNat_all_digits n]
  simp only [Bool.false_eq_true, if_false, if_true]
  unfold pyStrOfNat
  split
  · rename_i h; subst h; decide
  · rename_i h
    rw [foldl_digitChars _ (natDigitsAux_lt_ten n n) 0]
    simp [digitsVal_natDigitsAux n n le_rfl]

theorem pyStrOfNat_injective {m n : Nat} (h : pyStrOfNat m = pyStrOfNat n) : m = n := by
  have := pyToNat?_pyStrOfNat m
  rw [h, pyToNat?_pyStrOfNat n] at this
  exact (Option.some_injective _ this).symm

theorem foldl_replicate_zeros (k : Nat) :
    (List.replicate k '0').foldl (fun a c => 10 * a + pyDigitVal c) 0 = 0 := by
  induction k with
  | zero => rfl
  | succ k ih => simpa [List.replicate_succ, pyDigitVal] using ih

/-- Python `int` ignores leading zeros: `int(s.zfill(w)) = int(s)`. -/
theorem pyToNat?_pyZfill (s : List Char) (w : Nat) (v : Nat) (h : pyToNat? s = some v) :
    pyToNat? (pyZfill s w) = some v := by
  unfold pyToNat? at h
  by_cases he : s.isEmpty = true
  · rw [if_pos he] at h; exact absurd h (by simp)
  · rw [if_neg he] at h
    by_cases hd : s.all Char.isDigit = true
    · rw [if_pos hd] at h
      have hs : s ≠ [] := by
        cases s with
        | nil => exact absurd rfl he
        | cons a l => simp
      have hne : (pyZfill s w).isEmpty = false := by
        unfold pyZfill
        cases hrep : List.replicate (w - s.length) '0' with
        | nil =>
          cases s with
          | nil => exact absurd rfl hs
          | cons a l => rfl
        | cons a l => rfl
      have hall : (pyZfill s w).all Char.isDigit = true := by
        unfold pyZfill
        simp only [List.all_append, Bool.and_eq_true]
        constructor
        · simp only [List.all_eq_true]
          intro c hc
          rw [List.eq_of_mem_replicate hc]
          decide
        · exact hd
      unfold pyToNat?
      rw [hne, hall]
      simp only [Bool.false_eq_true, if_false, if_true]
      unfold pyZfill
      rw [List.foldl_append, foldl_replicate_zeros]
      exact h
    · rw [if_neg hd] at h; exact absurd h (by simp)

theorem not_dash_mem_of_all_digits (s : List Char) (h : s.all Char.isDigit = true) :
    '-' ∉ s := by
  intro hm
  simp only [List.all_eq_true] at h
  have := h '-' hm
  simp at this

theorem pySplitOn_ne_nil (sep : Char) (l : List Char) : pySplitOn sep l ≠ [] := by
  cases l with
  | nil => simp [pySplitOn]
  | cons c rest =>
    unfold pySplitOn
    split
    · simp
    · split <;> simp

theorem pySplitOn_of_not_mem (sep : Char) (l : List Char) (h : sep ∉ l) :
    pySplitOn sep l = [l] := by
  induction l with
  | nil => rfl
  | cons c rest ih =>
    have hc : c ≠ sep := fun hc => h (by simp [hc])
    have hrest : sep ∉ rest := fun hm => h (by simp [hm])
    unfold pySplitOn
    rw [if_neg hc, ih hrest]

theorem getLastD_irrel {α : Type} (l : List α) (a b : α) (h : l ≠ []) :
    l.getLastD a = l.getLastD b := by
  cases l with
  | nil => exact absurd rfl h
  | cons x xs => rw [List.getLastD_cons, List.getLastD_cons]

theorem pySplitOn_cons_sep (sep : Char) (rest : List Char) :
    pySplitOn sep (sep :: rest) = [] :: pySplitOn sep rest := by
  conv_lhs => unfold pySplitOn
  rw [if_pos rfl]

theorem pySplitOn_cons_ne (sep c : Char) (rest g : List Char) (gs : List (List Char))
    (hc : c ≠ sep) (hrest : pySplitOn sep rest = g :: gs) :
    pySplitOn sep (c :: rest) = (c :: g) :: gs := by
  conv_lhs => unfold pySplitOn
  rw [if_neg hc, hrest]

theorem pySplitOn_append_sep_len (sep : Char) (l1 l2 : List Char) :
    2 ≤ (pySplitOn sep (l1 ++ sep :: l2)).length := by
  induction l1 with
  | nil =>
    rw [List.nil_append, pySplitOn_cons_sep]
    cases h : pySplitOn sep l2 with
    | nil => exact absurd h (pySplitOn_ne_nil sep l2)
    | cons g gs => simp
  | cons c l1 ih =>
    rw [List.cons_append]
    cases h : pySplitOn sep (l1 ++ sep :: l2) with
    | nil => exact absurd h (pySplitOn_ne_nil sep _)
    | cons g gs =>
      rw [h] at ih
      by_cases hc : c = sep
      · subst hc
        rw [pySplitOn_cons_sep, h]
        simp
      · rw [pySplitOn_cons_ne sep c _ g gs hc h]
        simpa using ih

/-- The last group of `split` is determined by the text after the last
separator. -/
theorem pySplitOn_append_sep_last (sep : Char) (l1 l2 : List Char) :
    (pySplitOn sep (l1 ++ sep :: l2)).getLastD []
      = (pySplitOn sep l2).getLastD [] := by
  induction l1 with
  | nil =>
    rw [List.nil_append, pySplitOn_cons_sep, List.getLastD_cons]
  | cons c l1 ih =>
    rw [List.cons_append]
    cases h : pySplitOn sep (l1 ++ sep :: l2) with
    | nil => exact absurd h (pySplitOn_ne_nil sep _)
    | cons g gs =>
      rw [h] at ih
      have hlen := pySplitOn_append_sep_len sep l1 l2
      rw [h] at hlen
      by_cases hc : c = sep
      · subst hc
        rw [pySplitOn_cons_sep, h, List.getLastD_cons]
        rw [← ih, List.getLastD_cons]
      · rw [pySplitOn_cons_ne sep c _ g gs hc h]
        have hgs : gs ≠ [] := by
          cases gs with
          | nil => simp at hlen
          | cons x xs => simp
        rw [List.getLastD_cons, getLastD_irrel gs (c :: g) g hgs, ← List.getLastD_cons g]
        exact ih

/-! ## Errors, constants, bucket versioning status -/

deriving instance DecidableEq for Except

/-- Exceptions raised by the embedded code. -/
inductive Err where
  | noSuchKey
  | s3BucketVersionSuspendedError
  | invalidStatusValueError
  | keyError
  | valueError
  | indexError
deriving DecidableEq

/-- `constants.ZFILL`. -/
def ZFILL : Nat := 6

/-- `AwsTagKeyEnum.CONFIG_VERSION.value`. -/
def CONFIG_VERSION : List Char := "config_version".data

/-- `AwsTagKeyEnum.CONFIG_SHA256.value`. -/
def CONFIG_SHA256 : List Char := "config_sha256".data

/-- `constants.S3BucketVersionStatus`. -/
inductive S3BucketVersionStatus where
  | notEnabled
  | enabled
  | suspended
deriving DecidableEq

def S3BucketVersionStatus.is_not_enabled : S3BucketVersionStatus → Bool
  | .notEnabled => true
  | _ => false

def S3BucketVersionStatus.is_enabled : S3BucketVersionStatus → Bool
  | .enabled => true
  | _ => false

def S3BucketVersionStatus.is_suspended : S3BucketVersionStatus → Bool
  | .suspended => true
  | _ => false

/-- `s3.get_bucket_version_status`: the raw `Status` field of the
`get_bucket_versioning` response (absent for a bucket on which
versioning was never configured) defaults to `"NotEnabled"`, is
validated against the enum values, and is decoded. -/
def get_bucket_version_status (raw : Option String) : Except Err S3BucketVersionStatus :=
  let status := raw.getD "NotEnabled"
  if status = "NotEnabled" then .ok .notEnabled
  else if status = "Enabled" then .ok .enabled
  else if status = "Suspended" then .ok .suspended
  else .error .invalidStatusValueError

/-- `s3._ensure_bucket_versioning_is_not_suspended`. -/
def ensure_bucket_versioning_is_not_suspended (status : S3BucketVersionStatus) :
    Except Err Unit :=
  if status.is_suspended then .error .s3BucketVersionSuspendedError else .ok ()

/-! ## The stored-object model -/

variable {Data : Type} [DecidableEq Data]

/-- One S3 object in a versioning-NotEnabled bucket: parsed JSON content
plus user metadata. -/
structure DObj (Data : Type) where
  data : Data
  meta : List (List Char × List Char)
deriving DecidableEq

/-- The objects of the parameter's folder in a versioning-NotEnabled
bucket, keyed by object key. -/
abbrev DBucket (Data : Type) := List (List Char × DObj Data)

/-- Metadata dictionary lookup (first binding wins; the module always
writes distinct keys). -/
def mLookup : List (List Char × List Char) → List Char → Option (List Char)
  | [], _ => none
  | (k, v) :: rest, key => if k = key then some v else mLookup rest key

/-- `get_object` on an unversioned bucket. -/
def dLookup : DBucket Data → List Char → Option (DObj Data)
  | [], _ => none
  | (k, o) :: rest, key => if k = key then some o else dLookup rest key

/-- `delete_object` on an unversioned bucket (no error if absent). -/
def dRemove : DBucket Data → List Char → DBucket Data
  | [], _ => []
  | (k, o) :: rest, key => if k = key then dRemove rest key else (k, o) :: dRemove rest key

/-- `put_object` on an unversioned bucket: overwrites the key. -/
def dPut (b : DBucket Data) (key : List Char) (o : DObj Data) : DBucket Data :=
  (key, o) :: dRemove b key

/-- `iter_objects` over the parameter's folder: the keys present. -/
def dKeys (b : DBucket Data) : List (List Char) := b.map Prod.fst

/-- One historical entry of the canonical key in a versioning-Enabled
bucket: a stored version or a delete marker, each with its
backend-assigned version id. -/
inductive VEntry (Data : Type) where
  | content (vid : List Char) (data : Data) (meta : List (List Char × List Char))
  | marker (vid : List Char)
deriving DecidableEq

/-- `S3Path.version_id` of a historical entry. -/
def VEntry.version_id : VEntry Data → List Char
  | .content vid _ _ => vid
  | .marker vid => vid

/-- `S3Path.is_delete_marker()`. -/
def VEntry.is_delete_marker : VEntry Data → Bool
  | .content _ _ _ => false
  | .marker _ => true

/-- Backend state for one parameter path.  `objects` is the parameter's
folder in a versioning-NotEnabled bucket; `history` (newest first) and
`counter` (fresh version-id supply) are the canonical key of a
versioning-Enabled bucket. -/
structure S3State (Data : Type) where
  objects : DBucket Data
  history : List (VEntry Data)
  counter : Nat
deriving DecidableEq

/-! ## Object keys (`VersionCodec`) -/

/-- The `.json` suffix of every object key the module writes. -/
def jsonExt : List Char := ".json".data

/-- Key of the pointer object
(`{parameter_name}/{parameter_name}-latest.json`, relative to
`s3dir_config`; the constant folder part is elided because every
operation uses the same folder). -/
def latest_basename (name : List Char) : List Char :=
  (name ++ '-' :: "latest".data) ++ jsonExt

/-- Key of the versioned object
(`{parameter_name}-{str(n).zfill(ZFILL)}.json`). -/
def ver_basename (name : List Char) (n : Nat) : List Char :=
  (name ++ '-' :: pyZfill (pyStrOfNat n) ZFILL) ++ jsonExt

/-- `S3Path.fname`: the file name without the `.json` extension. -/
def fname (basename : List Char) : List Char :=
  basename.take (basename.length - 5)

/-- `int(s3path.fname.split("-")[-1])` with `try/except` as `Option`:
the version number encoded in an object key, if any. -/
def parse_key_version (basename : List Char) : Option Nat :=
  pyToNat? ((pySplitOn '-' (fname basename)).getLastD [])

theorem fname_append_ext (a : List Char) : fname (a ++ jsonExt) = a := by
  unfold fname
  have hlen : (a ++ jsonExt).length - 5 = a.length := by
    simp [jsonExt]
  rw [hlen]
  exact List.take_left a jsonExt

/-- The version number parsed back out of a versioned key is the one
encoded into it, whatever the parameter name is. -/
theorem parse_key_version_ver (name : List Char) (n : Nat) :
    parse_key_version (ver_basename name n) = some n := by
  unfold parse_key_version ver_basename
  rw [fname_append_ext]
  have hz : pyToNat? (pyZfill (pyStrOfNat n) ZFILL) = some n :=
    pyToNat?_pyZfill _ _ _ (pyToNat?_pyStrOfNat n)
  have hnd : '-' ∉ pyZfill (pyStrOfNat n) ZFILL := by
    apply not_dash_mem_of_all_digits
    unfold pyToNat? at hz
    by_cases he : (pyZfill (pyStrOfNat n) ZFILL).isEmpty = true
    · rw [if_pos he] at hz; exact absurd hz (by simp)
    · rw [if_neg he] at hz
      by_cases hd : (pyZfill (pyStrOfNat n) ZFILL).all Char.isDigit = true
      · exact hd
      · rw [if_neg hd] at hz; exact absurd hz (by simp)
  rw [pySplitOn_append_sep_last '-' name _, pySplitOn_of_not_mem '-' _ hnd]
  simpa using hz

/-- The pointer key parses to no version number: `int("latest")` raises
`ValueError` and the key is skipped by the fallback scan. -/
theorem parse_key_version_latest (name : List Char) :
    parse_key_version (latest_basename name) = none := by
  unfold parse_key_version latest_basename
  rw [fname_append_ext]
  rw [pySplitOn_append_sep_last '-' name _,
    pySplitOn_of_not_mem '-' _ (by decide)]
  decide

theorem ver_basename_injective (name : List Char) {m n : Nat}
    (h : ver_basename name m = ver_basename name n) : m = n := by
  have := parse_key_version_ver name m
  rw [h, parse_key_version_ver name n] at this
  exact (Option.some_injective _ this).symm

theorem latest_basename_ne_ver (name : List Char) (n : Nat) :
    latest_basename name ≠ ver_basename name n := by
  intro h
  have := parse_key_version_latest name
  rw [h, parse_key_version_ver name n] at this
  exact Option.noConfusion this

/-! ## `S3Parameter` and the public operations -/

structure S3Parameter where
  parameter_name : List Char
  version_status : S3BucketVersionStatus
  version_enabled : Bool
deriving DecidableEq

/-- `S3Parameter.new`: detect the bucket versioning status, reject
Suspended buckets, and record the mode (the `s3path_latest` field of the
Python class is a pure function of the mode and the name, embedded by
`latest_basename` / the canonical key). -/
def S3Parameter.new (raw : Option String) (parameter_name : List Char) :
    Except Err S3Parameter :=
  match get_bucket_version_status raw with
  | .error e => .error e
  | .ok status =>
    match ensure_bucket_versioning_is_not_suspended status with
    | .error e => .error e
    | .ok _ => .ok ⟨parameter_name, status, status.is_enabled⟩

/-- `s3path_latest.exists(bsm)`: HEAD on the pointer key (NotEnabled) or
on the canonical key (Enabled: 404 when the newest entry is a delete
marker or there is no entry). -/
def latest_exists (p : S3Parameter) (st : S3State Data) : Bool :=
  if p.version_enabled then
    match st.history with
    | .content _ _ _ :: _ => true
    | _ => false
  else (dLookup st.objects (latest_basename p.parameter_name)).isSome

/-- `S3Parameter.read_latest`: GET the latest object; the version served
with it is the backend version id (Enabled) or the `config_version`
metadata of the pointer object (NotEnabled). -/
def S3Parameter.read_latest (p : S3Parameter) (st : S3State Data) :
    Except Err (Data × List Char) :=
  if p.version_enabled then
    match st.history with
    | .content vid d _ :: _ => .ok (d, vid)
    | _ => .error .noSuchKey
  else
    match dLookup st.objects (latest_basename p.parameter_name) with
    | none => .error .noSuchKey
    | some o =>
      match mLookup o.meta CONFIG_VERSION with
      | none => .error .keyError
      | some v => .ok (o.data, v)

/-- `S3Parameter.get_latest_config_version_when_version_not_enabled`:
read the version out of the pointer metadata, or, when the pointer is
missing, scan the sibling objects and take the maximum version parsed
out of their keys. -/
def S3Parameter.get_latest_config_version_when_version_not_enabled
    (p : S3Parameter) (b : DBucket Data) : Except Err (Option Nat) :=
  match dLookup b (latest_basename p.parameter_name) with
  | some o =>
    match mLookup o.meta CONFIG_VERSION with
    | none => .error .keyError
    | some v =>
      match pyToNat? v with
      | none => .error .valueError
      | some n => .ok (some n)
  | none =>
    let versions := (dKeys b).filterMap parse_key_version
    match versions with
    | [] => .ok none
    | v :: vs => .ok (some (vs.foldl Nat.max v))

/-- `S3Parameter.get_latest_config_version_when_version_is_enabled`:
list the two most recent historical entries of the canonical key and
skip a leading delete marker.  Indexing `[1]` into a one-entry listing
raises `IndexError`. -/
def S3Parameter.get_latest_config_version_when_version_is_enabled
    (p : S3Parameter) (st : S3State Data) : Except Err (Option (List Char)) :=
  match st.history.take 2 with
  | [] => .ok none
  | e0 :: rest =>
    if e0.is_delete_marker then
      match rest with
      | [] => .error .indexError
      | e1 :: _ => .ok (some e1.version_id)
    else .ok (some e0.version_id)

/-- `S3Parameter.deploy_latest_when_version_not_enabled`: write the
immutable versioned object with `config_version` / `config_sha256`
metadata, then copy it onto the pointer key (`copy_to` duplicates
content and metadata). -/
def S3Parameter.deploy_latest_when_version_not_enabled
    (p : S3Parameter) (sha : Data → List Char) (b : DBucket Data)
    (config_data : Data) (config_version : List Char) : DBucket Data :=
  let basename := (p.parameter_name ++ '-' :: pyZfill config_version ZFILL) ++ jsonExt
  let o : DObj Data :=
    ⟨config_data, [(CONFIG_VERSION, config_version), (CONFIG_SHA256, sha config_data)]⟩
  let b1 := dPut b basename o
  dPut b1 (latest_basename p.parameter_name) o

/-- `S3Parameter.deploy_latest_when_version_is_enabled`: a single PUT on
the canonical key with a `config_sha256` metadata entry; the backend
assigns the fresh version id (returned last). -/
def S3Parameter.deploy_latest_when_version_is_enabled
    (p : S3Parameter) (sha : Data → List Char) (history : List (VEntry Data))
    (counter : Nat) (config_data : Data) : List (VEntry Data) × Nat × List Char :=
  let vid := pyStrOfNat counter
  (.content vid config_data [(CONFIG_SHA256, sha config_data)] :: history, counter + 1, vid)

/-- The write path of `deploy_config` after the idempotence check:
allocate `max+1` (NotEnabled, `1` when nothing exists) or PUT a new
backend version (Enabled).  Returns the version token of the deployed
object (its `config_version` metadata, resp. its backend version id)
and the new backend state. -/
def deploy_config_write (sha : Data → List Char) (p : S3Parameter)
    (st : S3State Data) (config_data : Data) :
    Except Err (Option (List Char) × S3State Data) :=
  if p.version_enabled = false then
    match p.get_latest_config_version_when_version_not_enabled st.objects with
    | .error e => .error e
    | .ok latest_version =>
      let new_version : Nat := match latest_version with | none => 1 | some v => v + 1
      let b2 := p.deploy_latest_when_version_not_enabled sha st.objects config_data
        (pyStrOfNat new_version)
      .ok (some (pyStrOfNat new_version), { st with objects := b2 })
  else
    let r := p.deploy_latest_when_version_is_enabled sha st.history st.counter config_data
    .ok (some r.2.2, { st with history := r.1, counter := r.2.1 })

/-- `s3.deploy_config`: construct the store, return `none` (NoOp,
backend untouched) when the stored content equals the new content,
otherwise write and return the new version token. -/
def deploy_config (sha : Data → List Char) (raw : Option String)
    (parameter_name : List Char) (st : S3State Data) (config_data : Data) :
    Except Err (Option (List Char) × S3State Data) :=
  match S3Parameter.new raw parameter_name with
  | .error e => .error e
  | .ok p =>
    if latest_exists p st then
      match p.read_latest st with
      | .error e => .error e
      | .ok (existing_config_data, _) =>
        if existing_config_data = config_data then .ok (none, st)
        else deploy_config_write sha p st config_data
    else deploy_config_write sha p st config_data

/-- `s3.read_config`. -/
def read_config (raw : Option String) (parameter_name : List Char)
    (st : S3State Data) : Except Err (Data × List Char) :=
  match S3Parameter.new raw parameter_name with
  | .error e => .error e
  | .ok p => p.read_latest st

/-- `s3.delete_config`: soft delete removes the pointer (NotEnabled) or
pushes a delete marker (Enabled); `include_history` removes the whole
parameter folder resp. every historical entry.  Always returns `true`. -/
def delete_config (raw : Option String) (parameter_name : List Char)
    (st : S3State Data) (include_history : Bool) :
    Except Err (Bool × S3State Data) :=
  match S3Parameter.new raw parameter_name with
  | .error e => .error e
  | .ok p =>
    if p.version_enabled = false then
      if include_history then .ok (true, { st with objects := [] })
      else
        .ok (true, { st with objects := dRemove st.objects (latest_basename p.parameter_name) })
    else
      if include_history then .ok (true, { st with history := [] })
      else
        let marked : List (VEntry Data) := .marker (pyStrOfNat st.counter) :: st.history
        .ok (true, { st with history := marked, counter := st.counter + 1 })

/-! ## Helpers for concrete scenarios -/

/-- Version token returned by a `deploy_config` call. -/
def deploy_token (sha : Data → List Char) (raw : Option String)
    (parameter_name : List Char) (st : S3State Data) (config_data : Data) :
    Except Err (Option (List Char)) :=
  (deploy_config sha raw parameter_name st config_data).map Prod.fst

/-- Backend state after a `deploy_config` call (unchanged when the call
raises). -/
def state_after_deploy (sha : Data → List Char) (raw : Option String)
    (parameter_name : List Char) (st : S3State Data) (config_data : Data) :
    S3State Data :=
  match deploy_config sha raw parameter_name st config_data with
  | .ok (_, st') => st'
  | .error _ => st

/-- Backend state after a `delete_config` call (unchanged when the call
raises). -/
def state_after_delete (raw : Option String) (parameter_name : List Char)
    (st : S3State Data) (include_history : Bool) : S3State Data :=
  match delete_config raw parameter_name st include_history with
  | .ok (_, st') => st'
  | .error _ => st

/-! ## Canonical states of the NotEnabled store

A parameter folder that has only ever been touched by this module
contains the versioned objects of the writes performed so far (newest
first in `rds`) and, unless the pointer was soft-deleted, the pointer
object carrying the newest content and version. -/

/-- The object written for content `d` at version `n`. -/
def dObjOf (sha : Data → List Char) (d : Data) (n : Nat) : DObj Data :=
  ⟨d, [(CONFIG_VERSION, pyStrOfNat n), (CONFIG_SHA256, sha d)]⟩

/-- The versioned objects for the writes `rds` (newest first):
versions `rds.length, …, 2, 1`. -/
def histD (sha : Data → List Char) (name : List Char) : List Data → DBucket Data
  | [] => []
  | d :: rest =>
    (ver_basename name (rest.length + 1), dObjOf sha d (rest.length + 1))
      :: histD sha name rest

/-- A canonical folder state: versioned objects for `rds`, plus the
pointer object when `ptr` is set (meaningful only for `rds ≠ []`). -/
def dBucketOf (sha : Data → List Char) (name : List Char)
    (rds : List Data) (ptr : Bool) : DBucket Data :=
  match ptr, rds with
  | true, d :: rest =>
    (latest_basename name, dObjOf sha d (rest.length + 1)) :: histD sha name (d :: rest)
  | _, _ => histD sha name rds

theorem dLookup_histD_some (sha : Data → List Char) (name : List Char) :
    ∀ (rds : List Data) (k : List Char) (o : DObj Data),
      dLookup (histD sha name rds) k = some o →
      ∃ j, 1 ≤ j ∧ j ≤ rds.length ∧ k = ver_basename name j := by
  intro rds
  induction rds with
  | nil => intro k o h; simp [histD, dLookup] at h
  | cons d rest ih =>
    intro k o h
    unfold histD dLookup at h
    by_cases hk : ver_basename name (rest.length + 1) = k
    · exact ⟨rest.length + 1, by omega, by simp, hk.symm⟩
    · rw [if_neg hk] at h
      obtain ⟨j, h1, h2, h3⟩ := ih k o h
      exact ⟨j, h1, by simp; omega, h3⟩

theorem dLookup_histD_latest (sha : Data → List Char) (name : List Char)
    (rds : List Data) :
    dLookup (histD sha name rds) (latest_basename name) = none := by
  induction rds with
  | nil => rfl
  | cons d rest ih =>
    unfold histD dLookup
    rw [if_neg]
    · exact ih
    · exact fun h => latest_basename_ne_ver name (rest.length + 1) h.symm

theorem dRemove_histD_latest (sha : Data → List Char) (name : List Char)
    (rds : List Data) :
    dRemove (histD sha name rds) (latest_basename name) = histD sha name rds := by
  induction rds with
  | nil => rfl
  | cons d rest ih =>
    unfold histD dRemove
    rw [if_neg, ih]
    exact fun h => latest_basename_ne_ver name (rest.length + 1) h.symm

theorem dRemove_histD_high (sha : Data → List Char) (name : List Char) :
    ∀ (rds : List Data) (m : Nat), rds.length < m →
      dRemove (histD sha name rds) (ver_basename name m) = histD sha name rds := by
  intro rds
  induction rds with
  | nil => intro m hm; rfl
  | cons d rest ih =>
    intro m hm
    unfold histD dRemove
    rw [if_neg, ih m (by simp at hm; omega)]
    intro h
    have := ver_basename_injective name h
    simp at hm
    omega

/-- The versions `n, n-1, …, 1`. -/
def countdown : Nat → List Nat
  | 0 => []
  | n + 1 => (n + 1) :: countdown n

theorem mem_countdown {x : Nat} : ∀ {n : Nat}, x ∈ countdown n → 1 ≤ x ∧ x ≤ n := by
  intro n
  induction n with
  | zero => intro h; simp [countdown] at h
  | succ n ih =>
    intro h
    unfold countdown at h
    rcases List.mem_cons.mp h with h | h
    · omega
    · have := ih h; omega

theorem foldl_max_of_le (a : Nat) : ∀ (l : List Nat), (∀ x ∈ l, x ≤ a) →
    l.foldl Nat.max a = a := by
  intro l
  induction l generalizing a with
  | nil => intro _; rfl
  | cons x xs ih =>
    intro h
    have hx : x ≤ a := h x (by simp)
    simp only [List.foldl_cons, Nat.max_eq_left hx]
    exact ih a fun y hy => h y (by simp [hy])

/-- The fallback scan over a canonical folder finds exactly the versions
written so far. -/
theorem filterMap_histD (sha : Data → List Char) (name : List Char)
    (rds : List Data) :
    (dKeys (histD sha name rds)).filterMap parse_key_version
      = countdown rds.length := by
  induction rds with
  | nil => rfl
  | cons d rest ih =>
    unfold histD
    simp only [dKeys, List.map_cons, List.filterMap_cons, parse_key_version_ver,
      List.length_cons]
    unfold countdown
    rw [← ih]
    rfl

theorem dLookup_dBucketOf_latest_ptr (sha : Data → List Char) (name : List Char)
    (d : Data) (rest : List Data) :
    dLookup (dBucketOf sha name (d :: rest) true) (latest_basename name)
      = some (dObjOf sha d (rest.length + 1)) := by
  unfold dBucketOf dLookup
  rw [if_pos rfl]

theorem dLookup_dBucketOf_latest_noptr (sha : Data → List Char) (name : List Char)
    (rds : List Data) :
    dLookup (dBucketOf sha name rds false) (latest_basename name) = none := by
  cases rds with
  | nil => rfl
  | cons d rest => exact dLookup_histD_latest sha name (d :: rest)

theorem dLookup_dBucketOf_ver (sha : Data → List Char) (name : List Char)
    (rds : List Data) (ptr : Bool) (n : Nat) :
    dLookup (dBucketOf sha name rds ptr) (ver_basename name n)
      = dLookup (histD sha name rds) (ver_basename name n) := by
  match ptr, rds with
  | true, d :: rest =>
    unfold dBucketOf dLookup
    rw [if_neg (latest_basename_ne_ver name n)]
    rfl
  | true, [] => rfl
  | false, [] => rfl
  | false, d :: rest => rfl

theorem dRemove_dBucketOf_latest (sha : Data → List Char) (name : List Char)
    (rds : List Data) (ptr : Bool) :
    dRemove (dBucketOf sha name rds ptr) (latest_basename name)
      = dBucketOf sha name rds false := by
  match ptr, rds with
  | true, d :: rest =>
    unfold dBucketOf dRemove
    rw [if_pos rfl]
    exact dRemove_histD_latest sha name (d :: rest)
  | true, [] => exact dRemove_histD_latest sha name []
  | false, [] => exact dRemove_histD_latest sha name []
  | false, d :: rest => exact dRemove_histD_latest sha name (d :: rest)

theorem dRemove_dBucketOf_high (sha : Data → List Char) (name : List Char)
    (rds : List Data) (ptr : Bool) (m : Nat) (hm : rds.length < m) :
    dRemove (dBucketOf sha name rds ptr) (ver_basename name m)
      = dBucketOf sha name rds ptr := by
  match ptr, rds with
  | true, d :: rest =>
    unfold dBucketOf dRemove
    rw [if_neg (latest_basename_ne_ver name m)]
    rw [dRemove_histD_high sha name (d :: rest) m hm]
  | true, [] => rfl
  | false, [] => rfl
  | false, d :: rest => exact dRemove_histD_high sha name (d :: rest) m hm

/-- `resolveLatest` with the pointer present: the version recorded in
the pointer metadata. -/
theorem get_latest_not_enabled_ptr (sha : Data → List Char) (name : List Char)
    (d : Data) (rest : List Data) (p : S3Parameter) (hp : p.parameter_name = name) :
    p.get_latest_config_version_when_version_not_enabled (dBucketOf sha name (d :: rest) true)
      = .ok (some (rest.length + 1)) := by
  unfold S3Parameter.get_latest_config_version_when_version_not_enabled
  rw [hp, dLookup_dBucketOf_latest_ptr]
  simp [dObjOf, mLookup, pyToNat?_pyStrOfNat]

/-- `resolveLatest` with the pointer missing: the fallback scan returns
the maximum version parsed out of the sibling keys. -/
theorem get_latest_not_enabled_noptr (sha : Data → List Char) (name : List Char)
    (rds : List Data) (p : S3Parameter) (hp : p.parameter_name = name) :
    p.get_latest_config_version_when_version_not_enabled (dBucketOf sha name rds false)
      = .ok (match rds with | [] => none | _ :: rest => some (rest.length + 1)) := by
  unfold S3Parameter.get_latest_config_version_when_version_not_enabled
  rw [hp, dLookup_dBucketOf_latest_noptr]
  cases rds with
  | nil => rfl
  | cons d rest =>
    have hb : dBucketOf sha name (d :: rest) false = histD sha name (d :: rest) := rfl
    rw [hb, filterMap_histD sha name (d :: rest)]
    have hcd : countdown (d :: rest).length = (rest.length + 1) :: countdown rest.length := rfl
    rw [hcd]
    have hmax : (countdown rest.length).foldl Nat.max (rest.length + 1) = rest.length + 1 :=
      foldl_max_of_le _ _ (fun x hx => by have := mem_countdown hx; omega)
    simp [hmax]

theorem dBucketOf_false (sha : Data → List Char) (name : List Char) (rds : List Data) :
    dBucketOf sha name rds false = histD sha name rds := by
  cases rds <;> rfl

/-- Writing version `len+1` and copying it onto the pointer turns a
canonical folder into the canonical folder extended by the write. -/
theorem dPut_dPut_dBucketOf (sha : Data → List Char) (name : List Char)
    (rds : List Data) (ptr : Bool) (d : Data) :
    dPut (dPut (dBucketOf sha name rds ptr) (ver_basename name (rds.length + 1))
        (dObjOf sha d (rds.length + 1)))
      (latest_basename name) (dObjOf sha d (rds.length + 1))
      = dBucketOf sha name (d :: rds) true := by
  unfold dPut
  rw [dRemove_dBucketOf_high sha name rds ptr (rds.length + 1) (Nat.lt_succ_self _)]
  unfold dRemove
  rw [if_neg (fun h => latest_basename_ne_ver name (rds.length + 1) h.symm),
    dRemove_dBucketOf_latest, dBucketOf_false]
  rfl

theorem deploy_latest_not_enabled_dBucketOf (sha : Data → List Char) (name : List Char)
    (rds : List Data) (ptr : Bool) (d : Data) (n : Nat) (hn : n = rds.length + 1)
    (p : S3Parameter) (hp : p.parameter_name = name) :
    p.deploy_latest_when_version_not_enabled sha (dBucketOf sha name rds ptr) d
        (pyStrOfNat n)
      = dBucketOf sha name (d :: rds) true := by
  subst hn
  unfold S3Parameter.deploy_latest_when_version_not_enabled
  rw [hp]
  exact dPut_dPut_dBucketOf sha name rds ptr d

/-- `deploy_config_write` on a canonical folder allocates `max+1` and
extends the folder. -/
theorem deploy_config_write_dBucketOf (sha : Data → List Char) (name : List Char)
    (rds : List Data) (ptr : Bool) (st : S3State Data) (d : Data)
    (hst : st.objects = dBucketOf sha name rds ptr) :
    deploy_config_write sha ⟨name, .notEnabled, false⟩ st d
      = .ok (some (pyStrOfNat (rds.length + 1)),
             { st with objects := dBucketOf sha name (d :: rds) true }) := by
  unfold deploy_config_write
  rw [if_pos rfl, hst]
  match ptr, rds with
  | true, d0 :: rest =>
    rw [get_latest_not_enabled_ptr sha name d0 rest _ rfl]
    dsimp only
    simp only [List.length_cons]
    rw [deploy_latest_not_enabled_dBucketOf sha name (d0 :: rest) true d
      (rest.length + 1 + 1) (by simp) _ rfl]
  | true, [] =>
    rw [show dBucketOf sha name ([] : List Data) true = dBucketOf sha name [] false from rfl,
      get_latest_not_enabled_noptr sha name [] _ rfl]
    dsimp only
    rw [deploy_latest_not_enabled_dBucketOf sha name [] false d 1 (by simp) _ rfl]
    norm_num
  | false, [] =>
    rw [get_latest_not_enabled_noptr sha name [] _ rfl]
    dsimp only
    rw [deploy_latest_not_enabled_dBucketOf sha name [] false d 1 (by simp) _ rfl]
    norm_num
  | false, d0 :: rest =>
    rw [get_latest_not_enabled_noptr sha name (d0 :: rest) _ rfl]
    dsimp only
    simp only [List.length_cons]
    rw [deploy_latest_not_enabled_dBucketOf sha name (d0 :: rest) false d
      (rest.length + 1 + 1) (by simp) _ rfl]

theorem new_not_enabled (name : List Char) :
    S3Parameter.new (some "NotEnabled") name = .ok ⟨name, .notEnabled, false⟩ := rfl

theorem latest_exists_dBucketOf_ptr (sha : Data → List Char) (name : List Char)
    (d0 : Data) (rest : List Data) (st : S3State Data)
    (hst : st.objects = dBucketOf sha name (d0 :: rest) true) :
    latest_exists ⟨name, .notEnabled, false⟩ st = true := by
  unfold latest_exists
  dsimp only
  rw [hst, dLookup_dBucketOf_latest_ptr]
  rfl

theorem read_latest_dBucketOf_ptr (sha : Data → List Char) (name : List Char)
    (d0 : Data) (rest : List Data) (st : S3State Data)
    (hst : st.objects = dBucketOf sha name (d0 :: rest) true) :
    S3Parameter.read_latest ⟨name, .notEnabled, false⟩ st
      = .ok (d0, pyStrOfNat (rest.length + 1)) := by
  unfold S3Parameter.read_latest
  dsimp only
  rw [hst, dLookup_dBucketOf_latest_ptr]
  simp [dObjOf, mLookup]

/-- A deploy on a canonical folder whose pointer is absent, or whose
pointer content differs from the new content, performs a real write of
version `len+1` and extends the folder. -/
theorem deploy_config_dBucketOf_write (sha : Data → List Char) (raw : Option String)
    (name : List Char) (rds : List Data) (ptr : Bool) (st : S3State Data) (d : Data)
    (hnew : S3Parameter.new raw name = .ok ⟨name, .notEnabled, false⟩)
    (hst : st.objects = dBucketOf sha name rds ptr)
    (hfresh : ∀ d0 rest, ptr = true → rds = d0 :: rest → d0 ≠ d) :
    deploy_config sha raw name st d
      = .ok (some (pyStrOfNat (rds.length + 1)),
             { st with objects := dBucketOf sha name (d :: rds) true }) := by
  unfold deploy_config
  rw [hnew]
  dsimp only
  match ptr, rds with
  | true, d0 :: rest =>
    rw [latest_exists_dBucketOf_ptr sha name d0 rest st hst]
    rw [if_pos rfl]
    rw [read_latest_dBucketOf_ptr sha name d0 rest st hst]
    dsimp only
    rw [if_neg (hfresh d0 rest rfl rfl)]
    exact deploy_config_write_dBucketOf sha name (d0 :: rest) true st d hst
  | true, [] =>
    have hex : latest_exists ⟨name, .notEnabled, false⟩ st = false := by
      unfold latest_exists
      dsimp only
      rw [hst,
        show dBucketOf sha name ([] : List Data) true = dBucketOf sha name [] false from rfl,
        dLookup_dBucketOf_latest_noptr]
      rfl
    rw [hex, if_neg (by simp)]
    exact deploy_config_write_dBucketOf sha name [] true st d hst
  | false, [] =>
    have hex : latest_exists ⟨name, .notEnabled, false⟩ st = false := by
      unfold latest_exists
      dsimp only
      rw [hst, dLookup_dBucketOf_latest_noptr]
      rfl
    rw [hex, if_neg (by simp)]
    exact deploy_config_write_dBucketOf sha name [] false st d hst
  | false, d0 :: rest =>
    have hex : latest_exists ⟨name, .notEnabled, false⟩ st = false := by
      unfold latest_exists
      dsimp only
      rw [hst, dLookup_dBucketOf_latest_noptr]
      rfl
    rw [hex, if_neg (by simp)]
    exact deploy_config_write_dBucketOf sha name (d0 :: rest) false st d hst

/-- A deploy of the content already stored in the pointer is a NoOp:
nothing is written, no version number is consumed. -/
theorem deploy_config_dBucketOf_noop (sha : Data → List Char) (raw : Option String)
    (name : List Char) (rest : List Data) (st : S3State Data) (d : Data)
    (hnew : S3Parameter.new raw name = .ok ⟨name, .notEnabled, false⟩)
    (hst : st.objects = dBucketOf sha name (d :: rest) true) :
    deploy_config sha raw name st d = .ok (none, st) := by
  unfold deploy_config
  rw [hnew]
  dsimp only
  rw [latest_exists_dBucketOf_ptr sha name d rest st hst, if_pos rfl,
    read_latest_dBucketOf_ptr sha name d rest st hst]
  dsimp only
  rw [if_pos rfl]

/-- Soft delete on a canonical folder removes exactly the pointer. -/
theorem delete_config_dBucketOf_soft (sha : Data → List Char) (raw : Option String)
    (name : List Char) (rds : List Data) (ptr : Bool) (st : S3State Data)
    (hnew : S3Parameter.new raw name = .ok ⟨name, .notEnabled, false⟩)
    (hst : st.objects = dBucketOf sha name rds ptr) :
    delete_config raw name st false
      = .ok (true, { st with objects := dBucketOf sha name rds false }) := by
  unfold delete_config
  rw [hnew]
  dsimp only
  rw [hst, dRemove_dBucketOf_latest, if_pos rfl, if_neg (by simp)]

theorem delete_config_not_enabled_hard (raw : Option String) (name : List Char)
    (st : S3State Data)
    (hnew : S3Parameter.new raw name = .ok ⟨name, .notEnabled, false⟩) :
    delete_config raw name st true = .ok (true, { st with objects := [] }) := by
  unfold delete_config
  rw [hnew]
  dsimp only
  rw [if_pos rfl, if_pos rfl]

theorem dLookup_histD_cons_low (sha : Data → List Char) (name : List Char)
    (rds : List Data) (d : Data) (N : Nat) (hN : N ≤ rds.length) :
    dLookup (histD sha name (d :: rds)) (ver_basename name N)
      = dLookup (histD sha name rds) (ver_basename name N) := by
  have h1 : histD sha name (d :: rds)
      = (ver_basename name (rds.length + 1), dObjOf sha d (rds.length + 1))
          :: histD sha name rds := rfl
  have h2 : ∀ (k key : List Char) (o : DObj Data) (b : DBucket Data),
      dLookup ((k, o) :: b) key = if k = key then some o else dLookup b key :=
    fun _ _ _ _ => rfl
  rw [h1, h2, if_neg (fun h => by have := ver_basename_injective name h; omega)]

/-! ## Reachable states of the NotEnabled store -/

/-- Folder states reachable from an empty parameter folder through the
public operations against a versioning-NotEnabled bucket. -/
inductive DReach (sha : Data → List Char) (name : List Char) : DBucket Data → Prop where
  | empty : DReach sha name []
  | deploy (b : DBucket Data) (d : Data) (r : Option (List Char)) (st' : S3State Data) :
      DReach sha name b →
      deploy_config sha (some "NotEnabled") name ⟨b, [], 0⟩ d = .ok (r, st') →
      DReach sha name st'.objects
  | delete (b : DBucket Data) (flag : Bool) (r : Bool) (st' : S3State Data) :
      DReach sha name b →
      delete_config (some "NotEnabled") name ⟨b, [], 0⟩ flag = .ok (r, st') →
      DReach sha name st'.objects

/-- Every reachable folder is canonical: versioned objects `1..n` for
the writes performed, plus possibly the pointer. -/
theorem dReach_shape (sha : Data → List Char) (name : List Char) (b : DBucket Data)
    (h : DReach sha name b) :
    ∃ rds ptr, b = dBucketOf sha name rds ptr ∧ (ptr = true → rds ≠ []) := by
  induction h with
  | empty => exact ⟨[], false, rfl, by simp⟩
  | deploy b d r st' hb heq ih =>
    obtain ⟨rds, ptr, hshape, hptr⟩ := ih
    by_cases hno : ptr = true ∧ ∃ rest, rds = d :: rest
    · obtain ⟨hp1, rest, hp2⟩ := hno
      have hnoop := deploy_config_dBucketOf_noop sha (some "NotEnabled") name rest
        ⟨b, [], 0⟩ d (new_not_enabled name) (by rw [show (⟨b, [], 0⟩ : S3State Data).objects = b from rfl, hshape, hp1, hp2])
      rw [hnoop] at heq
      simp only [Except.ok.injEq, Prod.mk.injEq] at heq
      rw [← heq.2]
      exact ⟨rds, ptr, hshape, hptr⟩
    · have hfresh : ∀ d0 rest, ptr = true → rds = d0 :: rest → d0 ≠ d := by
        intro d0 rest h1 h2 hd
        exact hno ⟨h1, rest, by rw [h2, hd]⟩
      have hw := deploy_config_dBucketOf_write sha (some "NotEnabled") name rds ptr
        ⟨b, [], 0⟩ d (new_not_enabled name) (by rw [show (⟨b, [], 0⟩ : S3State Data).objects = b from rfl, hshape]) hfresh
      rw [hw] at heq
      simp only [Except.ok.injEq, Prod.mk.injEq] at heq
      rw [← heq.2]
      exact ⟨d :: rds, true, rfl, by simp⟩
  | delete b flag r st' hb heq ih =>
    obtain ⟨rds, ptr, hshape, hptr⟩ := ih
    cases flag with
    | true =>
      rw [delete_config_not_enabled_hard (some "NotEnabled") name ⟨b, [], 0⟩
        (new_not_enabled name)] at heq
      simp only [Except.ok.injEq, Prod.mk.injEq] at heq
      rw [← heq.2]
      exact ⟨[], false, rfl, by simp⟩
    | false =>
      rw [delete_config_dBucketOf_soft sha (some "NotEnabled") name rds ptr ⟨b, [], 0⟩
        (new_not_enabled name) (by rw [show (⟨b, [], 0⟩ : S3State Data).objects = b from rfl, hshape])] at heq
      simp only [Except.ok.injEq, Prod.mk.injEq] at heq
      rw [← heq.2]
      exact ⟨rds, false, rfl, by simp⟩

/-- A sequence of `deploy_config` calls for the contents `ds`,
threading the backend state and collecting the returned version
tokens; stops at the first raised exception. -/
def run_deploys (sha : Data → List Char) (raw : Option String) (name : List Char) :
    S3State Data → List Data → Except Err (List (Option (List Char)) × S3State Data)
  | st, [] => .ok ([], st)
  | st, d :: ds =>
    match deploy_config sha raw name st d with
    | .error e => .error e
    | .ok (r, st') =>
      match run_deploys sha raw name st' ds with
      | .error e => .error e
      | .ok (rs, stf) => .ok (r :: rs, stf)

theorem run_deploys_from_ptr (sha : Data → List Char) (name : List Char) :
    ∀ (ds : List Data) (d0 : Data) (rest : List Data) (st : S3State Data),
      st.objects = dBucketOf sha name (d0 :: rest) true →
      List.Chain' (fun a b => a ≠ b) (d0 :: ds) →
      run_deploys sha (some "NotEnabled") name st ds
        = .ok ((List.range ds.length).map
                 (fun i => some (pyStrOfNat ((d0 :: rest).length + 1 + i))),
               { st with objects := dBucketOf sha name (ds.reverse ++ d0 :: rest) true }) := by
  intro ds
  induction ds with
  | nil =>
    intro d0 rest st hst hch
    unfold run_deploys
    simp only [List.range_zero, List.map_nil, List.reverse_nil, List.nil_append]
    cases st
    simp only at hst
    rw [← hst]
    simp only [List.length_nil, List.range_zero, List.map_nil]
  | cons d ds ih =>
    intro d0 rest st hst hch
    have hne : d0 ≠ d := (List.chain'_cons.mp hch).1
    have hch' : List.Chain' (fun a b => a ≠ b) (d :: ds) := (List.chain'_cons.mp hch).2
    unfold run_deploys
    have hw := deploy_config_dBucketOf_write sha (some "NotEnabled") name (d0 :: rest) true
      st d (new_not_enabled name) hst
      (fun d0' rest' _ heq => by injection heq with h1 h2; rw [← h1]; exact hne)
    rw [hw]
    dsimp only
    have hst1 : ({ st with objects := dBucketOf sha name (d :: d0 :: rest) true }
        : S3State Data).objects = dBucketOf sha name (d :: d0 :: rest) true := rfl
    rw [ih d (d0 :: rest) _ hst1 hch']
    dsimp only
    simp only [List.length_cons, List.range_succ_eq_map, List.map_cons, List.map_map,
      List.reverse_cons, List.append_assoc, List.cons_append, List.nil_append,
      Nat.add_zero, Function.comp]
    rw [show rest.length + 1 + 1 = rest.length + 2 from by omega]
    congr 1
    congr 1
    congr 1
    refine List.map_congr_left ?_
    intro i _
    simp only [Function.comp_apply]
    exact congrArg (fun n => some (pyStrOfNat n)) (by omega)

theorem dLookup_dPut_self (b : DBucket Data) (k : List Char) (o : DObj Data) :
    dLookup (dPut b k o) k = some o := by
  have h2 : dLookup ((k, o) :: dRemove b k) k
      = if k = k then some o else dLookup (dRemove b k) k := rfl
  rw [show dPut b k o = (k, o) :: dRemove b k from rfl, h2, if_pos rfl]

/-- After a successful (non-NoOp) write, the object served by a read of
the path is the new content, tagged with the returned version token:
the NotEnabled path goes through the freshly overwritten pointer
object, the Enabled path through the freshly pushed newest entry. -/
theorem deploy_config_write_success (sha : Data → List Char) (p : S3Parameter)
    (st : S3State Data) (d : Data) (tok : List Char) (st' : S3State Data)
    (h : deploy_config_write sha p st d = .ok (some tok, st')) :
    latest_exists p st' = true ∧ p.read_latest st' = .ok (d, tok) := by
  unfold deploy_config_write at h
  by_cases he : p.version_enabled = false
  · rw [if_pos he] at h
    cases hg : p.get_latest_config_version_when_version_not_enabled st.objects with
    | error e => rw [hg] at h; exact absurd h (by simp)
    | ok lv =>
      rw [hg] at h
      dsimp only at h
      simp only [Except.ok.injEq, Prod.mk.injEq, Option.some.injEq] at h
      obtain ⟨htok, hst'⟩ := h
      generalize hn : (match lv with | none => 1 | some v => v + 1) = n0 at htok hst'
      have hobj : st'.objects
          = p.deploy_latest_when_version_not_enabled sha st.objects d (pyStrOfNat n0) := by
        rw [← hst']
      have hlook : dLookup st'.objects (latest_basename p.parameter_name)
          = some ⟨d, [(CONFIG_VERSION, pyStrOfNat n0), (CONFIG_SHA256, sha d)]⟩ := by
        rw [hobj]
        unfold S3Parameter.deploy_latest_when_version_not_enabled
        dsimp only
        exact dLookup_dPut_self _ _ _
      constructor
      · unfold latest_exists
        rw [he]
        simp only [Bool.false_eq_true, if_false, hlook, Option.isSome_some]
      · unfold S3Parameter.read_latest
        rw [he]
        simp only [Bool.false_eq_true, if_false, hlook]
        simp [mLookup, htok]
  · rw [if_neg he] at h
    dsimp only at h
    simp only [Except.ok.injEq, Prod.mk.injEq, Option.some.injEq] at h
    obtain ⟨htok, hst'⟩ := h
    dsimp only [S3Parameter.deploy_latest_when_version_is_enabled] at htok
    have hhist : st'.history
        = VEntry.content (pyStrOfNat st.counter) d [(CONFIG_SHA256, sha d)] :: st.history := by
      rw [← hst']
      rfl
    have he' : p.version_enabled = true := by
      cases hb : p.version_enabled
      · exact absurd hb he
      · rfl
    constructor
    · unfold latest_exists
      rw [he', if_pos rfl, hhist]
    · unfold S3Parameter.read_latest
      rw [he', if_pos rfl, hhist]
      dsimp only
      rw [htok]

/-- Decomposition of a successful `deploy_config`: the store was
constructed, and the new backend state serves the written content under
the returned version token. -/
theorem deploy_config_success (sha : Data → List Char) (raw : Option String)
    (name : List Char) (st : S3State Data) (d : Data) (tok : List Char)
    (st' : S3State Data)
    (h : deploy_config sha raw name st d = .ok (some tok, st')) :
    ∃ p, S3Parameter.new raw name = .ok p ∧ latest_exists p st' = true ∧
      p.read_latest st' = .ok (d, tok) := by
  unfold deploy_config at h
  cases hnew : S3Parameter.new raw name with
  | error e => rw [hnew] at h; exact absurd h (by simp)
  | ok p =>
    rw [hnew] at h
    dsimp only at h
    refine ⟨p, rfl, ?_⟩
    by_cases hex : latest_exists p st = true
    · rw [if_pos hex] at h
      cases hr : p.read_latest st with
      | error e => rw [hr] at h; exact absurd h (by simp)
      | ok pr =>
        rw [hr] at h
        obtain ⟨existing, v⟩ := pr
        dsimp only at h
        by_cases heq : existing = d
        · rw [if_pos heq] at h; exact absurd h (by simp)
        · rw [if_neg heq] at h
          exact deploy_config_write_success sha p st d tok st' h
    · rw [if_neg hex] at h
      exact deploy_config_write_success sha p st d tok st' h

theorem new_enabled (name : List Char) :
    S3Parameter.new (some "Enabled") name = .ok ⟨name, .enabled, true⟩ := rfl

theorem new_suspended (name : List Char) :
    S3Parameter.new (some "Suspended") name = .error .s3BucketVersionSuspendedError := rfl

theorem deploy_config_enabled_of_empty (sha : Data → List Char) (name : List Char)
    (st : S3State Data) (d : Data) (hh : st.history = []) :
    deploy_config sha (some "Enabled") name st d
      = .ok (some (pyStrOfNat st.counter),
             { st with
               history := .content (pyStrOfNat st.counter) d [(CONFIG_SHA256, sha d)] :: st.history,
               counter := st.counter + 1 }) := by
  unfold deploy_config
  rw [new_enabled]
  dsimp only
  have hex : latest_exists ⟨name, .enabled, true⟩ st = false := by
    unfold latest_exists
    rw [if_pos rfl, hh]
  rw [hex, if_neg (by simp)]
  unfold deploy_config_write
  rw [if_neg (by simp)]
  rfl

theorem deploy_config_enabled_write_head (sha : Data → List Char) (name : List Char)
    (st : S3State Data) (d : Data) (vid : List Char) (d0 : Data)
    (m : List (List Char × List Char)) (tail : List (VEntry Data))
    (hh : st.history = .content vid d0 m :: tail) (hne : d0 ≠ d) :
    deploy_config sha (some "Enabled") name st d
      = .ok (some (pyStrOfNat st.counter),
             { st with
               history := .content (pyStrOfNat st.counter) d [(CONFIG_SHA256, sha d)] :: st.history,
               counter := st.counter + 1 }) := by
  unfold deploy_config
  rw [new_enabled]
  dsimp only
  have hex : latest_exists ⟨name, .enabled, true⟩ st = true := by
    unfold latest_exists
    rw [if_pos rfl, hh]
  rw [hex, if_pos rfl]
  have hr : S3Parameter.read_latest ⟨name, .enabled, true⟩ st = .ok (d0, vid) := by
    unfold S3Parameter.read_latest
    rw [if_pos rfl, hh]
  rw [hr]
  dsimp only
  rw [if_neg hne]
  unfold deploy_config_write
  rw [if_neg (by simp)]
  rfl

theorem deploy_config_enabled_noop (sha : Data → List Char) (name : List Char)
    (st : S3State Data) (d : Data) (vid : List Char)
    (m : List (List Char × List Char)) (tail : List (VEntry Data))
    (hh : st.history = .content vid d m :: tail) :
    deploy_config sha (some "Enabled") name st d = .ok (none, st) := by
  unfold deploy_config
  rw [new_enabled]
  dsimp only
  have hex : latest_exists ⟨name, .enabled, true⟩ st = true := by
    unfold latest_exists
    rw [if_pos rfl, hh]
  rw [hex, if_pos rfl]
  have hr : S3Parameter.read_latest ⟨name, .enabled, true⟩ st = .ok (d, vid) := by
    unfold S3Parameter.read_latest
    rw [if_pos rfl, hh]
  rw [hr]
  dsimp only
  rw [if_pos rfl]

theorem delete_config_enabled_soft (name : List Char) (st : S3State Data) :
    delete_config (some "Enabled") name st false
      = .ok (true, { st with
          history := .marker (pyStrOfNat st.counter) :: st.history,
          counter := st.counter + 1 }) := by
  unfold delete_config
  rw [new_enabled]
  dsimp only
  rw [if_neg (by simp), if_neg (by simp)]

theorem delete_config_enabled_hard (name : List Char) (st : S3State Data) :
    delete_config (some "Enabled") name st true
      = .ok (true, { st with history := [] }) := by
  unfold delete_config
  rw [new_enabled]
  dsimp only
  rw [if_neg (by simp), if_pos rfl]

/-! ## Claim theorems -/

/-- C1: Idempotent write.  If `write(p, C)` succeeds, an immediately
following `write(p, C)` — equality being that of the parsed
configuration data, insensitive to serialization and field order —
returns NoOp (`None`) with the backend state unchanged: no object is
created or overwritten and no new version number is consumed.  Holds
in both Enabled and NotEnabled modes (whatever mode the raw bucket
status resolves to). -/
theorem C1_idempotent_write (sha : Data → List Char) (raw : Option String)
    (name : List Char) (st : S3State Data) (d : Data) (tok : List Char)
    (st' : S3State Data)
    (h : deploy_config sha raw name st d = .ok (some tok, st')) :
    deploy_config sha raw name st' d = .ok (none, st') := by
  obtain ⟨p, hp, hex, hread⟩ := deploy_config_success sha raw name st d tok st' h
  unfold deploy_config
  rw [hp]
  dsimp only
  rw [if_pos hex, hread]
  dsimp only
  rw [if_pos rfl]

theorem C1_idempotent_write_witness :
    deploy_config pyStrOfNat (some "NotEnabled") "myapp".data
        (state_after_deploy pyStrOfNat (some "NotEnabled") "myapp".data
          (⟨[], [], 0⟩ : S3State Nat) 7) 7
      = .ok (none, state_after_deploy pyStrOfNat (some "NotEnabled") "myapp".data
          (⟨[], [], 0⟩ : S3State Nat) 7) :=
  C1_idempotent_write pyStrOfNat (some "NotEnabled") "myapp".data ⟨[], [], 0⟩ 7
    "1".data _ (by decide)

/-- C5: Round trip and pointer consistency.  Immediately after any
successful (non-NoOp) `write(p, C)`, `read(p)` returns content equal to
`C` together with that write's version token — in NotEnabled mode
because the pointer object is overwritten with the same content and
version metadata as the new versioned object, in Enabled mode because
the newest entry is the new backend version. -/
theorem C5_round_trip (sha : Data → List Char) (raw : Option String)
    (name : List Char) (st : S3State Data) (d : Data) (tok : List Char)
    (st' : S3State Data)
    (h : deploy_config sha raw name st d = .ok (some tok, st')) :
    read_config raw name st' = .ok (d, tok) := by
  obtain ⟨p, hp, _, hread⟩ := deploy_config_success sha raw name st d tok st' h
  unfold read_config
  rw [hp]
  exact hread

theorem C5_round_trip_witness :
    read_config (some "Enabled") "myapp".data
        (state_after_deploy pyStrOfNat (some "Enabled") "myapp".data
          (⟨[], [], 0⟩ : S3State Nat) 7)
      = .ok (7, "0".data) :=
  C5_round_trip pyStrOfNat (some "Enabled") "myapp".data ⟨[], [], 0⟩ 7
    "0".data _ (by decide)

/-- C6: Suspended-bucket rejection.  Every public entry point
constructs the store first, and against a bucket whose versioning
status is `Suspended` that construction — and hence the whole call —
fails with `S3BucketVersionSuspendedError`, for every backend state and
input, before anything is read or written; moreover no `S3Parameter`
value with Suspended status is ever constructed. -/
theorem C6_suspended_rejection (sha : Data → List Char) :
    (∀ (name : List Char) (st : S3State Data) (d : Data),
        deploy_config sha (some "Suspended") name st d
          = .error .s3BucketVersionSuspendedError)
    ∧ (∀ (name : List Char) (st : S3State Data),
        read_config (some "Suspended") name st
          = .error .s3BucketVersionSuspendedError)
    ∧ (∀ (name : List Char) (st : S3State Data) (flag : Bool),
        delete_config (some "Suspended") name st flag
          = .error .s3BucketVersionSuspendedError)
    ∧ (∀ (raw : Option String) (name : List Char) (p : S3Parameter),
        S3Parameter.new raw name = .ok p → p.version_status ≠ .suspended) := by
  refine ⟨?_, ?_, ?_, ?_⟩
  · intro name st d
    unfold deploy_config
    rw [new_suspended]
  · intro name st
    unfold read_config
    rw [new_suspended]
  · intro name st flag
    unfold delete_config
    rw [new_suspended]
  · intro raw name p hp
    unfold S3Parameter.new at hp
    cases hg : get_bucket_version_status raw with
    | error e => rw [hg] at hp; exact absurd hp (by simp)
    | ok status =>
      rw [hg] at hp
      unfold ensure_bucket_versioning_is_not_suspended at hp
      cases status with
      | suspended =>
        simp [S3BucketVersionStatus.is_suspended] at hp
      | notEnabled =>
        simp only [S3BucketVersionStatus.is_suspended] at hp
        rw [if_neg (by simp)] at hp
        simp only [Except.ok.injEq] at hp
        rw [← hp]
        simp
      | enabled =>
        simp only [S3BucketVersionStatus.is_suspended] at hp
        rw [if_neg (by simp)] at hp
        simp only [Except.ok.injEq] at hp
        rw [← hp]
        simp

theorem C6_suspended_rejection_witness :
    deploy_config pyStrOfNat (some "Suspended") "a".data (⟨[], [], 0⟩ : S3State Nat) 0
        = .error .s3BucketVersionSuspendedError
    ∧ (⟨"a".data, .notEnabled, false⟩ : S3Parameter).version_status ≠ .suspended :=
  ⟨(C6_suspended_rejection pyStrOfNat).1 "a".data ⟨[], [], 0⟩ 0,
   (C6_suspended_rejection pyStrOfNat).2.2.2 (some "NotEnabled") "a".data
     ⟨"a".data, .notEnabled, false⟩ (by rfl)⟩

/-- C7 counterexample: deleting a path that holds no objects at all
(empty folder, soft delete in NotEnabled mode) still returns `true`
and performs no deletion (the returned state is the unchanged empty
state), so "true if and only if a deletion was actually performed"
fails. -/
theorem C7_counterexample :
    delete_config (some "NotEnabled") "myapp".data (⟨[], [], 0⟩ : S3State Nat) false
      = .ok (true, ⟨[], [], 0⟩) := by decide

/-- C7 amended: for every path, state and both values of the
`include_history` flag, `delete_config` returns `true` whenever the
store construction succeeds — regardless of whether any object existed,
so the returned flag does not indicate that a deletion was actually
performed. -/
theorem C7_delete_returns_true (raw : Option String) (name : List Char)
    (st : S3State Data) (flag : Bool) (p : S3Parameter)
    (hp : S3Parameter.new raw name = .ok p) :
    ∃ st', delete_config raw name st flag = .ok (true, st') := by
  unfold delete_config
  rw [hp]
  dsimp only
  by_cases he : p.version_enabled = false
  · rw [if_pos he]
    cases flag
    · rw [if_neg (by simp)]
      exact ⟨_, rfl⟩
    · rw [if_pos rfl]
      exact ⟨_, rfl⟩
  · rw [if_neg he]
    cases flag
    · rw [if_neg (by simp)]
      exact ⟨_, rfl⟩
    · rw [if_pos rfl]
      exact ⟨_, rfl⟩

theorem C7_delete_returns_true_witness :
    ∃ st', delete_config (some "Enabled") "myapp".data (⟨[], [], 0⟩ : S3State Nat) true
      = .ok (true, st') :=
  C7_delete_returns_true (some "Enabled") "myapp".data ⟨[], [], 0⟩ true
    ⟨"myapp".data, .enabled, true⟩ (by rfl)

/-- C10: The implicit default of the mode detector: when the
`get_bucket_versioning` response carries no `Status` field (a bucket on
which versioning was never configured), the status is classified as
`NotEnabled` rather than failing, and store construction succeeds with
`version_enabled = false` — the manual-sequencing (NotEnabled) strategy
used by all dispatching operations. -/
theorem C10_missing_status_not_enabled :
    get_bucket_version_status none = .ok .notEnabled
    ∧ (∀ name : List Char, S3Parameter.new none name = .ok ⟨name, .notEnabled, false⟩) :=
  ⟨rfl, fun _ => rfl⟩

/-- C4 counterexample: a history consisting of a single DeleteMarker
does not yield a defined result — the code indexes `s3path_list[1]`
out of range and raises `IndexError`. -/
theorem C4_counterexample :
    S3Parameter.get_latest_config_version_when_version_is_enabled
        ⟨"myapp".data, .enabled, true⟩ (⟨[], [.marker "m".data], 0⟩ : S3State Nat)
      = .error .indexError := by decide

/-- C4 amended: Enabled-mode latest-version resolution returns NotFound
(`none`) on zero entries; when the most recent entry is not a
DeleteMarker it returns that entry's identifier; when the most recent
entry is a DeleteMarker and a second-most-recent entry exists it
returns the second entry's identifier; but on a history consisting of a
single DeleteMarker it raises `IndexError` instead of yielding a
result. -/
theorem C4_resolver_enabled_amended (p : S3Parameter) :
    (∀ (b : DBucket Data) (c : Nat),
        p.get_latest_config_version_when_version_is_enabled ⟨b, [], c⟩ = .ok none)
    ∧ (∀ (vid : List Char) (d : Data) (m : List (List Char × List Char))
          (rest : List (VEntry Data)) (b : DBucket Data) (c : Nat),
        p.get_latest_config_version_when_version_is_enabled
            ⟨b, .content vid d m :: rest, c⟩
          = .ok (some vid))
    ∧ (∀ (vid : List Char) (e : VEntry Data) (rest : List (VEntry Data))
          (b : DBucket Data) (c : Nat),
        p.get_latest_config_version_when_version_is_enabled
            ⟨b, .marker vid :: e :: rest, c⟩
          = .ok (some e.version_id))
    ∧ (∀ (vid : List Char) (b : DBucket Data) (c : Nat),
        p.get_latest_config_version_when_version_is_enabled ⟨b, [.marker vid], c⟩
          = .error .indexError) := by
  refine ⟨fun b c => rfl, fun vid d m rest b c => rfl, fun vid e rest b c => ?_, fun vid b c => rfl⟩
  cases e <;> rfl

/-- C3 counterexample: Enabled mode, from an empty path: write content 0
(backend version id "0" = v1), write content 1 (version id "1" = v2),
soft delete.  `resolveLatestVersion` then returns "1" — the identifier
of v2, not of v1 as the claim states ("1" ≠ "0"); `read` does return
NotFound. -/
theorem C3_counterexample :
    deploy_token pyStrOfNat (some "Enabled") "myapp".data (⟨[], [], 0⟩ : S3State Nat) 0
        = .ok (some "0".data)
    ∧ deploy_token pyStrOfNat (some "Enabled") "myapp".data
        (state_after_deploy pyStrOfNat (some "Enabled") "myapp".data
          (⟨[], [], 0⟩ : S3State Nat) 0) 1
        = .ok (some "1".data)
    ∧ S3Parameter.get_latest_config_version_when_version_is_enabled
        ⟨"myapp".data, .enabled, true⟩
        (state_after_delete (some "Enabled") "myapp".data
          (state_after_deploy pyStrOfNat (some "Enabled") "myapp".data
            (state_after_deploy pyStrOfNat (some "Enabled") "myapp".data
              (⟨[], [], 0⟩ : S3State Nat) 0) 1) false)
        = .ok (some "1".data)
    ∧ ("1".data : List Char) ≠ "0".data := by decide

/-- C3 amended: marker-skip scenario in Enabled mode.  From an empty
path, after writing `d1` (version id v1), writing distinct content `d2`
(version id v2) and soft-deleting the path, `resolveLatestVersion`
returns v2's identifier — the latest real version hidden under the
marker — and `read` returns NotFound. -/
theorem C3_marker_skip_amended (sha : Data → List Char) (name : List Char)
    (d1 d2 : Data) (hne : d1 ≠ d2) :
    deploy_token sha (some "Enabled") name ⟨[], [], 0⟩ d1 = .ok (some (pyStrOfNat 0))
    ∧ deploy_token sha (some "Enabled") name
        (state_after_deploy sha (some "Enabled") name ⟨[], [], 0⟩ d1) d2
      = .ok (some (pyStrOfNat 1))
    ∧ S3Parameter.get_latest_config_version_when_version_is_enabled
        ⟨name, .enabled, true⟩
        (state_after_delete (some "Enabled") name
          (state_after_deploy sha (some "Enabled") name
            (state_after_deploy sha (some "Enabled") name ⟨[], [], 0⟩ d1) d2) false)
      = .ok (some (pyStrOfNat 1))
    ∧ read_config (some "Enabled") name
        (state_after_delete (some "Enabled") name
          (state_after_deploy sha (some "Enabled") name
            (state_after_deploy sha (some "Enabled") name ⟨[], [], 0⟩ d1) d2) false)
      = .error .noSuchKey := by
  have h1 := deploy_config_enabled_of_empty sha name (⟨[], [], 0⟩ : S3State Data) d1 rfl
  have hst1 : state_after_deploy sha (some "Enabled") name ⟨[], [], 0⟩ d1
      = ⟨[], [.content (pyStrOfNat 0) d1 [(CONFIG_SHA256, sha d1)]], 1⟩ := by
    unfold state_after_deploy
    rw [h1]
  have h2 := deploy_config_enabled_write_head sha name
    (⟨[], [.content (pyStrOfNat 0) d1 [(CONFIG_SHA256, sha d1)]], 1⟩ : S3State Data) d2
    (pyStrOfNat 0) d1 [(CONFIG_SHA256, sha d1)] [] rfl hne
  have hst2 : state_after_deploy sha (some "Enabled") name
        (state_after_deploy sha (some "Enabled") name ⟨[], [], 0⟩ d1) d2
      = ⟨[], [.content (pyStrOfNat 1) d2 [(CONFIG_SHA256, sha d2)],
             .content (pyStrOfNat 0) d1 [(CONFIG_SHA256, sha d1)]], 2⟩ := by
    rw [hst1]
    unfold state_after_deploy
    rw [h2]
  have h3 := delete_config_enabled_soft name
    (⟨[], [.content (pyStrOfNat 1) d2 [(CONFIG_SHA256, sha d2)],
          .content (pyStrOfNat 0) d1 [(CONFIG_SHA256, sha d1)]], 2⟩ : S3State Data)
  have hst3 : state_after_delete (some "Enabled") name
        (state_after_deploy sha (some "Enabled") name
          (state_after_deploy sha (some "Enabled") name ⟨[], [], 0⟩ d1) d2) false
      = ⟨[], [.marker (pyStrOfNat 2),
             .content (pyStrOfNat 1) d2 [(CONFIG_SHA256, sha d2)],
             .content (pyStrOfNat 0) d1 [(CONFIG_SHA256, sha d1)]], 3⟩ := by
    rw [hst2]
    unfold state_after_delete
    rw [h3]
  refine ⟨?_, ?_, ?_, ?_⟩
  · unfold deploy_token
    rw [h1]
    rfl
  · unfold deploy_token
    rw [hst1, h2]
    rfl
  · rw [hst3]
    rfl
  · rw [hst3]
    rfl

theorem C3_marker_skip_amended_witness :
    deploy_token pyStrOfNat (some "Enabled") "myapp".data (⟨[], [], 0⟩ : S3State Nat) 0
        = .ok (some (pyStrOfNat 0))
    ∧ deploy_token pyStrOfNat (some "Enabled") "myapp".data
        (state_after_deploy pyStrOfNat (some "Enabled") "myapp".data
          (⟨[], [], 0⟩ : S3State Nat) 0) 1
      = .ok (some (pyStrOfNat 1))
    ∧ S3Parameter.get_latest_config_version_when_version_is_enabled
        ⟨"myapp".data, .enabled, true⟩
        (state_after_delete (some "Enabled") "myapp".data
          (state_after_deploy pyStrOfNat (some "Enabled") "myapp".data
            (state_after_deploy pyStrOfNat (some "Enabled") "myapp".data
              (⟨[], [], 0⟩ : S3State Nat) 0) 1) false)
      = .ok (some (pyStrOfNat 1))
    ∧ read_config (some "Enabled") "myapp".data
        (state_after_delete (some "Enabled") "myapp".data
          (state_after_deploy pyStrOfNat (some "Enabled") "myapp".data
            (state_after_deploy pyStrOfNat (some "Enabled") "myapp".data
              (⟨[], [], 0⟩ : S3State Nat) 0) 1) false)
      = .error .noSuchKey :=
  C3_marker_skip_amended pyStrOfNat "myapp".data 0 1 (by decide)

theorem natDigitsAux_length_le :
    ∀ fuel n k, n < 10 ^ k → (natDigitsAux fuel n).length ≤ k := by
  intro fuel
  induction fuel with
  | zero => intro n k h; cases n <;> simp [natDigitsAux]
  | succ fuel ih =>
    intro n k h
    cases n with
    | zero => simp [natDigitsAux]
    | succ m =>
      cases k with
      | zero => simp at h
      | succ k' =>
        simp only [natDigitsAux, List.length_cons]
        have hdiv : (m + 1) / 10 < 10 ^ k' := by
          rw [Nat.div_lt_iff_lt_mul (by norm_num)]
          calc m + 1 < 10 ^ (k' + 1) := h
            _ = 10 ^ k' * 10 := by ring
        have := ih ((m + 1) / 10) k' hdiv
        omega

theorem digitsVal_lt (l : List Nat) (h : ∀ d ∈ l, d < 10) :
    digitsVal l < 10 ^ l.length := by
  induction l with
  | nil => simp [digitsVal]
  | cons d rest ih =>
    have hd : d < 10 := h d (by simp)
    have ihr := ih (fun x hx => h x (by simp [hx]))
    simp only [digitsVal, List.length_cons, pow_succ]
    omega

theorem pyStrOfNat_length_le (n k : Nat) (hk : 1 ≤ k) (h : n < 10 ^ k) :
    (pyStrOfNat n).length ≤ k := by
  unfold pyStrOfNat
  split
  · simpa using hk
  · rw [List.length_reverse, List.length_map]
    exact natDigitsAux_length_le n n k h

theorem pyStrOfNat_length_gt (n : Nat) (h : 10 ^ 6 ≤ n) : 6 < (pyStrOfNat n).length := by
  by_contra hle
  push_neg at hle
  have hn0 : n ≠ 0 := by
    intro h0
    rw [h0] at h
    norm_num at h
  have hval := digitsVal_natDigitsAux n n le_rfl
  have hlt := digitsVal_lt (natDigitsAux n n) (natDigitsAux_lt_ten n n)
  unfold pyStrOfNat at hle
  rw [if_neg hn0, List.length_reverse, List.length_map] at hle
  have hpow : (10:Nat) ^ (natDigitsAux n n).length ≤ 10 ^ 6 :=
    Nat.pow_le_pow_right (by norm_num) hle
  have h6 : (10:Nat) ^ 6 = 1000000 := by norm_num
  omega

/-- C9 counterexample: with the pointer recording version 999999, a
write of distinct content allocates version 1000000 and is accepted
silently (token "1000000"), instead of failing as a configuration
error. -/
theorem C9_counterexample :
    deploy_token pyStrOfNat (some "NotEnabled") "myapp".data
        ⟨[(latest_basename "myapp".data, dObjOf pyStrOfNat 7 999999)], [], 0⟩ 8
      = .ok (some "1000000".data) := by decide

/-- C9 amended: version numbers are rendered zero-padded to the fixed
width `ZFILL = 6` (up to 999,999 versions keep the fixed-width key); a
write that allocates a version number exceeding the bound is accepted
silently — the key simply carries the longer unpadded number (no error,
no wraparound), as the concrete allocation of version 1,000,000
demonstrates. -/
theorem C9_padding_amended :
    ZFILL = 6
    ∧ (∀ n : Nat, n ≤ 999999 → (pyZfill (pyStrOfNat n) ZFILL).length = 6)
    ∧ (∀ n : Nat, 999999 < n →
        pyZfill (pyStrOfNat n) ZFILL = pyStrOfNat n
        ∧ 6 < (pyZfill (pyStrOfNat n) ZFILL).length)
    ∧ deploy_token pyStrOfNat (some "NotEnabled") "myapp".data
        ⟨[(latest_basename "myapp".data, dObjOf pyStrOfNat 7 999999)], [], 0⟩ 8
      = .ok (some (pyStrOfNat 1000000)) := by
  refine ⟨rfl, ?_, ?_, by decide⟩
  · intro n hn
    have hlen : (pyStrOfNat n).length ≤ 6 :=
      pyStrOfNat_length_le n 6 (by norm_num) (by norm_num; omega)
    unfold pyZfill ZFILL
    simp only [List.length_append, List.length_replicate]
    omega
  · intro n hn
    have hlen : 6 < (pyStrOfNat n).length := pyStrOfNat_length_gt n (by norm_num; omega)
    constructor
    · unfold pyZfill ZFILL
      rw [show 6 - (pyStrOfNat n).length = 0 from by omega]
      simp
    · unfold pyZfill ZFILL
      simp only [List.length_append, List.length_replicate]
      omega

theorem C9_padding_amended_witness :
    (pyZfill (pyStrOfNat 3) ZFILL).length = 6
    ∧ 6 < (pyZfill (pyStrOfNat 1000000) ZFILL).length :=
  ⟨C9_padding_amended.2.1 3 (by decide),
   (C9_padding_amended.2.2.1 1000000 (by decide)).2⟩

/-- C2: Monotonic version sequence in NotEnabled (Disabled) mode:
starting from a path with no objects, `N` successive writes of
pairwise-distinct contents return version tokens exactly
`"1", "2", …, "N"` in call order — each write allocates the current
maximum version plus one, with 1 used when no version exists. -/
theorem C2_monotonic_versions (sha : Data → List Char) (name : List Char)
    (ds : List Data) (hd : ds.Pairwise (fun a b => a ≠ b)) :
    ∃ stf, run_deploys sha (some "NotEnabled") name ⟨[], [], 0⟩ ds
      = .ok ((List.range ds.length).map (fun i => some (pyStrOfNat (i + 1))), stf) := by
  cases ds with
  | nil => exact ⟨⟨[], [], 0⟩, rfl⟩
  | cons d ds =>
    have hch : List.Chain' (fun a b => a ≠ b) (d :: ds) := List.Pairwise.chain' hd
    have hw := deploy_config_dBucketOf_write sha (some "NotEnabled") name [] false
      ⟨[], [], 0⟩ d (new_not_enabled name) rfl
      (fun d0 rest hptr heq => absurd heq (by simp))
    refine ⟨⟨dBucketOf sha name (ds.reverse ++ [d]) true, [], 0⟩, ?_⟩
    unfold run_deploys
    rw [hw]
    dsimp only
    rw [run_deploys_from_ptr sha name ds d [] ⟨dBucketOf sha name [d] true, [], 0⟩ rfl hch]
    dsimp only
    simp only [List.length_cons, List.length_nil, List.range_succ_eq_map, List.map_cons,
      List.map_map, Nat.zero_add, Nat.add_zero]
    congr 1
    congr 1
    congr 1
    refine List.map_congr_left ?_
    intro i _
    simp only [Function.comp_apply]
    exact congrArg (fun n => some (pyStrOfNat n)) (by omega)

theorem dLookup_cons (k key : List Char) (o : DObj Data) (b : DBucket Data) :
    dLookup ((k, o) :: b) key = if k = key then some o else dLookup b key := rfl

theorem dLookup_dRemove_ne (b : DBucket Data) (key k : List Char) (h : k ≠ key) :
    dLookup (dRemove b key) k = dLookup b k := by
  induction b with
  | nil => rfl
  | cons kv rest ih =>
    obtain ⟨k0, o0⟩ := kv
    rw [show dRemove ((k0, o0) :: rest) key
        = if k0 = key then dRemove rest key else (k0, o0) :: dRemove rest key from rfl]
    by_cases h0 : k0 = key
    · rw [if_pos h0, ih, dLookup_cons, if_neg (by rw [h0]; exact fun he => h he.symm)]
    · rw [if_neg h0, dLookup_cons, dLookup_cons]
      by_cases hk : k0 = k
      · rw [if_pos hk, if_pos hk]
      · rw [if_neg hk, if_neg hk, ih]

theorem dLookup_dBucketOf_ver_bound (sha : Data → List Char) (name : List Char)
    (rds : List Data) (ptr : Bool) (N : Nat) (o : DObj Data)
    (h : dLookup (dBucketOf sha name rds ptr) (ver_basename name N) = some o) :
    N ≤ rds.length := by
  rw [dLookup_dBucketOf_ver] at h
  obtain ⟨j, hj1, hj2, hj3⟩ := dLookup_histD_some sha name rds (ver_basename name N) o h
  have := ver_basename_injective name hj3.symm
  omega

/-- C8: Write-once history in NotEnabled (Disabled) mode.  On every
folder reachable through the store's own operations, once a versioned
object exists at version `N`, a subsequent write leaves it bound to the
same key with the same content and metadata (reads are pure and change
nothing); a soft delete changes no key other than the pointer —
removing only the pointer object — after which the versioned object is
still directly addressable by version while `read` returns NotFound. -/
theorem C8_write_once (sha : Data → List Char) (name : List Char) (b : DBucket Data)
    (hreach : DReach sha name b) (N : Nat) (o : DObj Data)
    (hN : dLookup b (ver_basename name N) = some o) :
    (∀ (d : Data) (r : Option (List Char)) (st' : S3State Data),
        deploy_config sha (some "NotEnabled") name ⟨b, [], 0⟩ d = .ok (r, st') →
        dLookup st'.objects (ver_basename name N) = some o)
    ∧ (∀ st' : S3State Data,
        delete_config (some "NotEnabled") name ⟨b, [], 0⟩ false = .ok (true, st') →
        dLookup st'.objects (ver_basename name N) = some o
        ∧ (∀ k, k ≠ latest_basename name → dLookup st'.objects k = dLookup b k)
        ∧ dLookup st'.objects (latest_basename name) = none
        ∧ read_config (some "NotEnabled") name st' = .error .noSuchKey) := by
  obtain ⟨rds, ptr, hshape, hptr⟩ := dReach_shape sha name b hreach
  subst hshape
  have hbound : N ≤ rds.length := dLookup_dBucketOf_ver_bound sha name rds ptr N o hN
  constructor
  · intro d r st' heq
    by_cases hno : ptr = true ∧ ∃ rest, rds = d :: rest
    · obtain ⟨hp1, rest, hp2⟩ := hno
      have hnoop := deploy_config_dBucketOf_noop sha (some "NotEnabled") name rest
        ⟨dBucketOf sha name rds ptr, [], 0⟩ d (new_not_enabled name)
        (by rw [show (⟨dBucketOf sha name rds ptr, [], 0⟩ : S3State Data).objects
              = dBucketOf sha name rds ptr from rfl, hp1, hp2])
      rw [hnoop] at heq
      simp only [Except.ok.injEq, Prod.mk.injEq] at heq
      rw [← heq.2]
      exact hN
    · have hfresh : ∀ d0 rest, ptr = true → rds = d0 :: rest → d0 ≠ d := by
        intro d0 rest h1 h2 hde
        exact hno ⟨h1, rest, by rw [h2, hde]⟩
      have hw := deploy_config_dBucketOf_write sha (some "NotEnabled") name rds ptr
        ⟨dBucketOf sha name rds ptr, [], 0⟩ d (new_not_enabled name) rfl hfresh
      rw [hw] at heq
      simp only [Except.ok.injEq, Prod.mk.injEq] at heq
      rw [← heq.2]
      show dLookup (dBucketOf sha name (d :: rds) true) (ver_basename name N) = some o
      rw [dLookup_dBucketOf_ver, dLookup_histD_cons_low sha name rds d N hbound,
        ← dLookup_dBucketOf_ver sha name rds ptr N]
      exact hN
  · intro st' heq
    have hsoft := delete_config_dBucketOf_soft sha (some "NotEnabled") name rds ptr
      ⟨dBucketOf sha name rds ptr, [], 0⟩ (new_not_enabled name) rfl
    rw [hsoft] at heq
    simp only [Except.ok.injEq, Prod.mk.injEq, true_and] at heq
    rw [← heq]
    refine ⟨?_, ?_, ?_, ?_⟩
    · show dLookup (dBucketOf sha name rds false) (ver_basename name N) = some o
      rw [dLookup_dBucketOf_ver, ← dLookup_dBucketOf_ver sha name rds ptr N]
      exact hN
    · intro k hk
      show dLookup (dBucketOf sha name rds false) k = dLookup (dBucketOf sha name rds ptr) k
      rw [← dRemove_dBucketOf_latest sha name rds ptr,
        dLookup_dRemove_ne (dBucketOf sha name rds ptr) (latest_basename name) k hk]
    · exact dLookup_dBucketOf_latest_noptr sha name rds
    · unfold read_config
      rw [new_not_enabled]
      dsimp only
      unfold S3Parameter.read_latest
      rw [if_neg (by simp)]
      rw [show (⟨dBucketOf sha name rds false, [], 0⟩ : S3State Data).objects
          = dBucketOf sha name rds false from rfl]
      rw [dLookup_dBucketOf_latest_noptr sha name rds]

theorem C8_write_once_witness :
    dLookup (state_after_delete (some "NotEnabled") "a".data
        ⟨(state_after_deploy pyStrOfNat (some "NotEnabled") "a".data
            (⟨[], [], 0⟩ : S3State Nat) 7).objects, [], 0⟩ false).objects
      (ver_basename "a".data 1) = some (dObjOf pyStrOfNat 7 1)
    ∧ read_config (some "NotEnabled") "a".data
        (state_after_delete (some "NotEnabled") "a".data
          ⟨(state_after_deploy pyStrOfNat (some "NotEnabled") "a".data
              (⟨[], [], 0⟩ : S3State Nat) 7).objects, [], 0⟩ false)
      = .error .noSuchKey := by
  have h := (C8_write_once pyStrOfNat "a".data
      (state_after_deploy pyStrOfNat (some "NotEnabled") "a".data
        (⟨[], [], 0⟩ : S3State Nat) 7).objects
      (DReach.deploy [] 7 (some "1".data)
        (state_after_deploy pyStrOfNat (some "NotEnabled") "a".data
          (⟨[], [], 0⟩ : S3State Nat) 7)
        DReach.empty (by decide))
      1 (dObjOf pyStrOfNat 7 1) (by decide)).2
      (state_after_delete (some "NotEnabled") "a".data
        ⟨(state_after_deploy pyStrOfNat (some "NotEnabled") "a".data
            (⟨[], [], 0⟩ : S3State Nat) 7).objects, [], 0⟩ false)
      (by decide)
  exact ⟨h.1, h.2.2.2⟩

theorem C2_monotonic_versions_witness :
    ∃ stf, run_deploys pyStrOfNat (some "NotEnabled") "myapp".data
        (⟨[], [], 0⟩ : S3State Nat) [10, 20, 30]
      = .ok ((List.range ([10, 20, 30] : List Nat).length).map
               (fun i => some (pyStrOfNat (i + 1))), stf) :=
  C2_monotonic_versions pyStrOfNat "myapp".data [10, 20, 30] (by decide)
